import Mathlib

/-!
Verification of the core of `find_me_a_room_ark`: the timetable scraping and
ingestion pipeline.  The embedding below translates, from the TypeScript
source, the day/date resolver (`src/utils.ts`), the cell text classifier and
clash block splitter (`src/scraping.ts`), the per-row page parser
(`src/scraping.ts`), the lecturer extractor (`src/scripts/lecturer-utils.ts`),
the store insert operations (`src/scripts/db.ts` schema +
`src/scripts/scrape-core.ts` prepared statements), and the scrape-log retry
state machine (`src/scripts/scrape-core.ts`).

Dates are modelled as day numbers (`Nat`) whose weekday is the number mod 7,
with day 0 a Sunday, matching JavaScript `Date.getDay()` numbering.
Timestamps are minutes since day 0.  The cheerio/DOM layer is abstracted: a
fetched page is modelled as its extracted rows (resolved day text plus the
`(className, cellText)` pairs of its `td` cells).
-/

namespace FindMeARoom

/-! ### Day/Date Resolver (`src/utils.ts`) -/

/-- The canonical weekday list from `src/utils.ts` / `src/scraping.ts`,
indexed as JavaScript `Date.getDay()` (0 = Sunday). -/
def daysOfWeek : List String :=
  ["Sunday", "Monday", "Tuesday", "Wednesday", "Thursday", "Friday", "Saturday"]

/-- `getNextOccurrenceOfDay` from `src/utils.ts`.  `today` is the current
date as a day number (weekday = `today % 7`).  Returns `none` where the
source throws `Error("Invalid day name")`. -/
def getNextOccurrenceOfDay (today : Nat) (dayName : String) : Option Nat :=
  match daysOfWeek.findIdx? (· == dayName) with
  | none => none
  | some targetDayOfWeek =>
    let todayDayOfWeek := today % 7
    if targetDayOfWeek < todayDayOfWeek then
      some (today + (targetDayOfWeek + 7 - todayDayOfWeek))
    else if targetDayOfWeek == todayDayOfWeek then
      some today
    else
      some (today + (targetDayOfWeek - todayDayOfWeek))

end FindMeARoom

namespace FindMeARoom

/-- C4 helper: characterisation of the arithmetic core of
`getNextOccurrenceOfDay` once the weekday index is known. -/
theorem nextOcc_spec (today target : Nat) (ht : target < 7) :
    ∃ d, (if target < today % 7 then some (today + (target + 7 - today % 7))
          else if target == today % 7 then some today
          else some (today + (target - today % 7))) = some d ∧
      d % 7 = target ∧ today ≤ d ∧ d < today + 7 ∧ (today % 7 = target → d = today) := by
  have h7 : today % 7 < 7 := Nat.mod_lt _ (by omega)
  by_cases h1 : target < today % 7
  · refine ⟨today + (target + 7 - today % 7), by simp [h1], ?_, ?_, ?_, ?_⟩ <;> omega
  · by_cases h2 : target = today % 7
    · have hb : (target == today % 7) = true := by simp [h2]
      refine ⟨today, by simp [h1, hb], ?_, ?_, ?_, ?_⟩ <;> omega
    · have hb : (target == today % 7) = false := by simp [h2]
      refine ⟨today + (target - today % 7), by simp [h1, hb], ?_, ?_, ?_, ?_⟩ <;> omega

/-- C4 helper: behaviour of the resolver once the weekday has been found at
index `idx` in `daysOfWeek`. -/
theorem getNextOcc_found (today : Nat) (dayName : String) (idx : Nat)
    (hlt : idx < 7) (hfind : daysOfWeek.findIdx? (· == dayName) = some idx) :
    ∃ d, getNextOccurrenceOfDay today dayName = some d ∧
      d % 7 = idx ∧ today ≤ d ∧ d < today + 7 ∧ (today % 7 = idx → d = today) := by
  obtain ⟨d, hd, h1, h2, h3, h4⟩ := nextOcc_spec today idx hlt
  refine ⟨d, ?_, h1, h2, h3, h4⟩
  unfold getNextOccurrenceOfDay
  rw [hfind]
  exact hd

/-- C4: for every canonical weekday name, `getNextOccurrenceOfDay` returns a
date whose weekday (`d % 7`) matches the name's weekday index, lying within
the next 7 days of the current date (today itself when today matches); for
every other input it fails (`none`, modelling the thrown
`Error("Invalid day name")`). -/
theorem C4_day_resolver (today : Nat) (dayName : String) :
    (dayName ∈ daysOfWeek →
      ∃ idx d, daysOfWeek.findIdx? (· == dayName) = some idx ∧
        getNextOccurrenceOfDay today dayName = some d ∧
        d % 7 = idx ∧ today ≤ d ∧ d < today + 7 ∧ (today % 7 = idx → d = today)) ∧
    (dayName ∉ daysOfWeek → getNextOccurrenceOfDay today dayName = none) := by
  constructor
  · intro h
    have hcore : ∀ idx : Nat, idx < 7 →
        daysOfWeek.findIdx? (· == dayName) = some idx →
        ∃ i d, daysOfWeek.findIdx? (· == dayName) = some i ∧
          getNextOccurrenceOfDay today dayName = some d ∧
          d % 7 = i ∧ today ≤ d ∧ d < today + 7 ∧ (today % 7 = i → d = today) := by
      intro idx hlt hfind
      obtain ⟨d, hd, h1, h2, h3, h4⟩ := getNextOcc_found today dayName idx hlt hfind
      exact ⟨idx, d, hfind, hd, h1, h2, h3, h4⟩
    fin_cases h
    · exact hcore 0 (by omega) (by decide)
    · exact hcore 1 (by omega) (by decide)
    · exact hcore 2 (by omega) (by decide)
    · exact hcore 3 (by omega) (by decide)
    · exact hcore 4 (by omega) (by decide)
    · exact hcore 5 (by omega) (by decide)
    · exact hcore 6 (by omega) (by decide)
  · intro h
    have hnone : daysOfWeek.findIdx? (· == dayName) = none := by
      rw [List.findIdx?_eq_none_iff]
      intro x hx
      simp only [beq_eq_false_iff_ne, ne_eq]
      intro he
      exact h (he ▸ hx)
    unfold getNextOccurrenceOfDay
    rw [hnone]

/-- C4 witness: concrete run at `today = 10` (a Wednesday, since
`10 % 7 = 3`) asking for `"Wednesday"`. -/
theorem C4_day_resolver_witness :
    "Wednesday" ∈ daysOfWeek ∧
    ∃ idx d, daysOfWeek.findIdx? (· == "Wednesday") = some idx ∧
      getNextOccurrenceOfDay 10 "Wednesday" = some d ∧
      d % 7 = idx ∧ 10 ≤ d ∧ d < 10 + 7 ∧ (10 % 7 = idx → d = 10) :=
  ⟨by decide, (C4_day_resolver 10 "Wednesday").1 (by decide)⟩

/-! ### Character helpers (JavaScript regex semantics, ASCII range) -/

/-- The regex class `\d` = `[0-9]` (ASCII code points 48–57). -/
def isDigitChar (c : Char) : Bool := 48 ≤ c.toNat && c.toNat ≤ 57

/-- The regex class `[A-Z]` (ASCII code points 65–90). -/
def isUpperChar (c : Char) : Bool := 65 ≤ c.toNat && c.toNat ≤ 90

/-- The regex class `[a-z]` (ASCII code points 97–122). -/
def isLowerChar (c : Char) : Bool := 97 ≤ c.toNat && c.toNat ≤ 122

/-- The regex class `[A-Za-z]`. -/
def isAlphaChar (c : Char) : Bool := isUpperChar c || isLowerChar c

/-- JavaScript `\s` on the ASCII range (space, tab, newline, carriage
return, vertical tab, form feed). -/
def isSpaceChar (c : Char) : Bool :=
  c == ' ' || c == '\t' || c == '\n' || c == '\r' ||
  c == Char.ofNat 11 || c == Char.ofNat 12

/-- JS `String.prototype.trim`. -/
def jsTrim (s : String) : String :=
  String.mk (((s.toList.dropWhile isSpaceChar).reverse.dropWhile isSpaceChar).reverse)

/-- ASCII lower-casing of a character list (JS `toLowerCase` restricted to
the ASCII inputs this system handles). -/
def lowerList (cs : List Char) : List Char := cs.map Char.toLower

/-- Substring containment, JS `String.prototype.includes`. -/
def containsSub (cs pat : List Char) : Bool :=
  cs.tails.any (fun t => pat.isPrefixOf t)

/-- Case-insensitive literal prefix; `pat` is given lowercased.  Returns the
remainder on success. -/
def stripCI (pat : List Char) (cs : List Char) : Option (List Char) :=
  if lowerList (cs.take pat.length) == pat then some (cs.drop pat.length) else none

/-! ### Line patterns of the cell classifier (`src/scraping.ts`) -/

/-- Greedy `\d{1,2}`; in the time pattern it is always followed by a
non-digit (`:`), where greedy matching agrees with regex backtracking. -/
def matchD12 : List Char → Option (List Char)
  | c1 :: c2 :: r => if isDigitChar c1 then (if isDigitChar c2 then some r else some (c2 :: r)) else none
  | [c1] => if isDigitChar c1 then some [] else none
  | [] => none

/-- Exact `\d{2}`. -/
def matchD2 : List Char → Option (List Char)
  | c1 :: c2 :: r => if isDigitChar c1 && isDigitChar c2 then some r else none
  | _ => none

/-- `\d{1,2}:\d{2}`. -/
def timePairM (cs : List Char) : Option (List Char) :=
  match matchD12 cs with
  | none => none
  | some r =>
    match r with
    | ':' :: r2 => matchD2 r2
    | _ => none

/-- The time pattern `/^\d{1,2}:\d{2}\s*-\s*\d{1,2}:\d{2}$/`. -/
def timeRe (cs : List Char) : Bool :=
  match timePairM cs with
  | none => false
  | some r1 =>
    match r1.dropWhile isSpaceChar with
    | '-' :: r3 =>
      match timePairM (r3.dropWhile isSpaceChar) with
      | some r5 => r5.isEmpty
      | none => false
    | _ => false

/-- The separator class `[-â€“:]` of the module pattern, exactly the five
characters appearing in the source file. -/
def moduleSeps : List Char := ['-', 'â', '€', '“', ':']

/-- The module pattern `/^[A-Z]{2,4}\d{3,5}[A-Z]?\s*[-â€“:]/i`: 2–4 letters,
3–5 digits, an optional letter, optional whitespace, then a separator.
Letter/digit/space/separator classes are pairwise disjoint, so greedy
run-taking agrees with regex backtracking. -/
def moduleRe (cs : List Char) : Bool :=
  let letters := cs.takeWhile isAlphaChar
  let rest1 := cs.dropWhile isAlphaChar
  if letters.length < 2 || 4 < letters.length then false
  else
    let digits := rest1.takeWhile isDigitChar
    let rest2 := rest1.dropWhile isDigitChar
    if digits.length < 3 || 5 < digits.length then false
    else
      let rest3 := match rest2 with
        | c :: r => if isAlphaChar c then r else rest2
        | [] => []
      match rest3.dropWhile isSpaceChar with
      | c :: _ => moduleSeps.contains c
      | [] => false

/-- The module-code test `/^[A-Z]{2,4}\d{3,5}/i` excluding module codes from
the lecturer comma pattern. -/
def moduleCodePre (cs : List Char) : Bool :=
  let letters := cs.takeWhile isAlphaChar
  let rest1 := cs.dropWhile isAlphaChar
  2 ≤ letters.length && letters.length ≤ 4 &&
    3 ≤ (rest1.takeWhile isDigitChar).length

/-- The cohort pattern `/^\(Group:\s*([^\)]+)\)\s*$/i`; returns the trimmed
captured cohort on success (`cohortMatch[1].trim()`). -/
def cohortMatch (cs : List Char) : Option String :=
  match cs with
  | '(' :: r1 =>
    match stripCI "group:".toList r1 with
    | none => none
    | some r2 =>
      let content := r2.takeWhile (· != ')')
      match r2.dropWhile (· != ')') with
      | ')' :: r3 =>
        if 1 ≤ content.length && r3.all isSpaceChar then
          some (jsTrim (String.mk content))
        else none
      | _ => none
  | _ => none

/-- `[\s-]?` — at most one whitespace-or-dash character (always followed by
a letter here, so greedy consumption agrees with backtracking). -/
def optSpaceDash : List Char → List Char
  | c :: r => if isSpaceChar c || c == '-' then r else c :: r
  | [] => []

/-- The session keyword pattern
`/^(Lecture|Practical|Seminar|Workshop|Tutorial|Lab|Placement|Project|Exam|Assessment|Drop[\s-]?in|Non[\s-]?Teaching)/i`. -/
def sessionStart (cs : List Char) : Bool :=
  let l := lowerList cs
  "lecture".toList.isPrefixOf l || "practical".toList.isPrefixOf l ||
  "seminar".toList.isPrefixOf l || "workshop".toList.isPrefixOf l ||
  "tutorial".toList.isPrefixOf l || "lab".toList.isPrefixOf l ||
  "placement".toList.isPrefixOf l || "project".toList.isPrefixOf l ||
  "exam".toList.isPrefixOf l || "assessment".toList.isPrefixOf l ||
  (match stripCI "drop".toList cs with
   | some r => "in".toList.isPrefixOf (lowerList (optSpaceDash r))
   | none => false) ||
  (match stripCI "non".toList cs with
   | some r => "teaching".toList.isPrefixOf (lowerList (optSpaceDash r))
   | none => false)

/-- One candidate position of `\((On\s*Campus|Online|Hybrid)\)\s*$/i`:
matches when the list starts with the parenthesised alternative and runs to
the end through trailing whitespace. -/
def campusAt (cs : List Char) : Bool :=
  match cs with
  | '(' :: r1 =>
    (match stripCI "on".toList r1 with
     | some r2 =>
       match stripCI "campus".toList (r2.dropWhile isSpaceChar) with
       | some r3 => (match r3 with | ')' :: r4 => r4.all isSpaceChar | _ => false)
       | none => false
     | none => false) ||
    (match stripCI "online".toList r1 with
     | some r3 => (match r3 with | ')' :: r4 => r4.all isSpaceChar | _ => false)
     | none => false) ||
    (match stripCI "hybrid".toList r1 with
     | some r3 => (match r3 with | ')' :: r4 => r4.all isSpaceChar | _ => false)
     | none => false)
  | _ => false

/-- `\((On\s*Campus|Online|Hybrid)\)\s*$/i`, searched anywhere in the line
(unanchored at the start). -/
def campusEnd (cs : List Char) : Bool := cs.tails.any campusAt

/-- The name-character class `[A-Za-z'-]` of the lecturer comma pattern. -/
def nameChar (c : Char) : Bool := isAlphaChar c || c == '\'' || c == '-'

/-- Lecturer pattern 1: contains a comma, matches
`/^[A-Za-z'-]+,\s*[A-Za-z'-]+/`, does not start with a digit, and does not
start with a module code. -/
def lecturerCommaRe (cs : List Char) : Bool :=
  cs.contains ',' &&
  (1 ≤ (cs.takeWhile nameChar).length &&
    (match cs.dropWhile nameChar with
     | ',' :: r2 =>
       (match r2.dropWhile isSpaceChar with
        | c :: _ => nameChar c
        | [] => false)
     | _ => false)) &&
  (match cs with
   | c :: _ => !(isDigitChar c)
   | [] => true) &&
  !moduleCodePre cs

/-- The session keyword exclusion of lecturer pattern 2
`/^(Lecture|Practical|Seminar|Workshop|Tutorial|Lab|Placement|Project|Exam|Assessment|Online|Hybrid)/i`. -/
def sessionStart2 (cs : List Char) : Bool :=
  let l := lowerList cs
  "lecture".toList.isPrefixOf l || "practical".toList.isPrefixOf l ||
  "seminar".toList.isPrefixOf l || "workshop".toList.isPrefixOf l ||
  "tutorial".toList.isPrefixOf l || "lab".toList.isPrefixOf l ||
  "placement".toList.isPrefixOf l || "project".toList.isPrefixOf l ||
  "exam".toList.isPrefixOf l || "assessment".toList.isPrefixOf l ||
  "online".toList.isPrefixOf l || "hybrid".toList.isPrefixOf l

/-- Lecturer pattern 2: `/^[A-Z]+[a-z]+[A-Za-z]*$/` (an all-letter token
starting uppercase and containing a lowercase letter) with the session
keyword exclusion and a 4–30 character window. -/
def lecturerUserRe (cs : List Char) : Bool :=
  (cs.takeWhile isUpperChar != [] && cs.dropWhile isUpperChar != [] &&
    cs.all isAlphaChar) &&
  !sessionStart2 cs &&
  (4 ≤ cs.length && cs.length ≤ 30)

/-- The clash-cell banner test `/clashing events/i`. -/
def bannerRe (cs : List Char) : Bool :=
  containsSub (lowerList cs) "clashing events".toList

/-! ### Cell Text Classifier (`src/scraping.ts` lines 241–302) -/

/-- The per-block field slots of the classifier; `none` models JS `null`. -/
structure Slots where
  time : Option String := none
  module : Option String := none
  lecturer : Option String := none
  sessionType : Option String := none
  groupCohort : Option String := none
deriving Repr, DecidableEq

/-- JS truthiness of a nullable string (`null` and `""` are falsy). -/
def falsy : Option String → Bool
  | none => true
  | some s => s == ""

/-- One iteration of the field-classification loop
(`src/scraping.ts` lines 248–302), including the final best-effort module
fallback. -/
def classifyLine (s : Slots) (line : String) : Slots :=
  if falsy s.time && timeRe line.toList then { s with time := some line }
  else if falsy s.module && moduleRe line.toList then { s with module := some line }
  else if falsy s.groupCohort && (cohortMatch line.toList).isSome then
    { s with groupCohort := some ((cohortMatch line.toList).getD "") }
  else if falsy s.sessionType && sessionStart line.toList then { s with sessionType := some line }
  else if falsy s.sessionType && campusEnd line.toList then { s with sessionType := some line }
  else if falsy s.lecturer && lecturerCommaRe line.toList then { s with lecturer := some line }
  else if falsy s.lecturer && lecturerUserRe line.toList then { s with lecturer := some line }
  else if falsy s.module then { s with module := some line }
  else s

/-- The classifier over one line-group. -/
def classify (lines : List String) : Slots := lines.foldl classifyLine {}

/-! ### Clash Block Splitter (`src/scraping.ts` lines 204–235) -/

/-- JS `split("\n")` on the character list. -/
def splitLines : List Char → List (List Char)
  | [] => [[]]
  | c :: r =>
    if c = '\n' then [] :: splitLines r
    else
      match splitLines r with
      | g :: gs => (c :: g) :: gs
      | [] => [[c]]

/-- The non-empty trimmed lines of a cell's text:
`columnText.split("\n").map(s => s.trim()).filter(Boolean)`. -/
def prepLines (cellText : String) : List String :=
  ((splitLines cellText.toList).map (fun cs => jsTrim (String.mk cs))).filter (· != "")

/-- The clash-cell scanning loop: banner lines are skipped, a time line
closes the current block and starts a new one, any other line extends the
current block (and is dropped before the first time line). -/
def clashGo (current : List String) : List String → List (List String)
  | [] => if current == [] then [] else [current]
  | l :: rest =>
    if bannerRe l.toList then clashGo current rest
    else if timeRe l.toList then
      (if current == [] then [] else [current]) ++ clashGo [l] rest
    else if current == [] then clashGo current rest
    else clashGo (current ++ [l]) rest

/-- The block splitter: a single block for a normal cell, the time-scanning
split for a clash cell. -/
def splitBlocks (cellText : String) (isClashCell : Bool) : List (List String) :=
  if isClashCell then clashGo [] (prepLines cellText) else [prepLines cellText]

/-- The union of character classes a time line can contain. -/
def timeChar (c : Char) : Bool :=
  isDigitChar c || c == ':' || c == '-' || isSpaceChar c

/-! ### Splitter lemmas -/

theorem mem_dropWhile_or {α : Type} (p : α → Bool) (l : List α) (a : α)
    (h : a ∈ l) : a ∈ l.dropWhile p ∨ p a = true := by
  induction l with
  | nil => cases h
  | cons b t ih =>
    rw [List.dropWhile_cons]
    rcases List.mem_cons.mp h with rfl | ht
    · by_cases hb : p a = true
      · right; exact hb
      · left; rw [if_neg hb]; exact List.mem_cons_self _ _
    · by_cases hb : p b = true
      · rw [if_pos hb]; exact ih ht
      · left; rw [if_neg hb]; exact List.mem_cons_of_mem _ ht

theorem matchD12_sub (cs r : List Char) (h : matchD12 cs = some r) :
    ∀ c ∈ cs, c ∈ r ∨ isDigitChar c = true := by
  match cs with
  | [] => simp [matchD12] at h
  | [c1] =>
    intro c hc
    by_cases h1 : isDigitChar c1 = true
    · rcases List.mem_singleton.mp hc with rfl
      right; exact h1
    · simp [matchD12, h1] at h
  | c1 :: c2 :: t =>
    intro c hc
    by_cases h1 : isDigitChar c1 = true
    · by_cases h2 : isDigitChar c2 = true
      · simp only [matchD12, h1, h2, if_true, Option.some.injEq] at h
        subst h
        rcases List.mem_cons.mp hc with rfl | hc'
        · right; exact h1
        · rcases List.mem_cons.mp hc' with rfl | hc''
          · right; exact h2
          · left; exact hc''
      · have hb2 : isDigitChar c2 = false := by rwa [Bool.not_eq_true] at h2
        simp only [matchD12, h1, hb2, if_true, Bool.false_eq_true, if_false,
          Option.some.injEq] at h
        subst h
        rcases List.mem_cons.mp hc with rfl | hc'
        · right; exact h1
        · left; exact hc'
    · simp [matchD12, h1] at h

theorem matchD2_sub (cs r : List Char) (h : matchD2 cs = some r) :
    ∀ c ∈ cs, c ∈ r ∨ isDigitChar c = true := by
  match cs with
  | [] => simp [matchD2] at h
  | [c1] => simp [matchD2] at h
  | c1 :: c2 :: t =>
    intro c hc
    by_cases h12 : (isDigitChar c1 && isDigitChar c2) = true
    · simp only [matchD2, h12, if_true, Option.some.injEq] at h
      subst h
      rw [Bool.and_eq_true] at h12
      rcases List.mem_cons.mp hc with rfl | hc'
      · right; exact h12.1
      · rcases List.mem_cons.mp hc' with rfl | hc''
        · right; exact h12.2
        · left; exact hc''
    · simp [matchD2, h12] at h

theorem timePairM_sub (cs r : List Char) (h : timePairM cs = some r) :
    ∀ c ∈ cs, c ∈ r ∨ isDigitChar c = true ∨ c = ':' := by
  intro c hc
  unfold timePairM at h
  split at h
  · exact absurd h (by simp)
  · split at h
    · rename_i x r1 r2 h12
      rcases matchD12_sub cs (':' :: r2) h12 c hc with hc1 | hd
      · rcases List.mem_cons.mp hc1 with rfl | hc2
        · right; right; rfl
        · rcases matchD2_sub r2 r h c hc2 with hcr | hd2
          · left; exact hcr
          · right; left; exact hd2
      · right; left; exact hd
    · exact absurd h (by simp)

theorem timeRe_chars (cs : List Char) (h : timeRe cs = true) :
    ∀ c ∈ cs, timeChar c = true := by
  intro c hc
  unfold timeRe at h
  split at h
  · exact absurd h (by simp)
  · rename_i r1 htp
    split at h
    · rename_i r3 hdrop
      split at h
      · rename_i r5 htp2
        rw [List.isEmpty_iff] at h
        subst h
        rcases timePairM_sub cs r1 htp c hc with hr1 | hd | hcol
        · rcases mem_dropWhile_or isSpaceChar r1 c hr1 with hdw | hsp
          · rw [hdrop] at hdw
            rcases List.mem_cons.mp hdw with rfl | hr3
            · simp [timeChar]
            · rcases mem_dropWhile_or isSpaceChar r3 c hr3 with hdw2 | hsp2
              · rcases timePairM_sub _ [] htp2 c hdw2 with h5 | hd2 | hcol2
                · cases h5
                · simp [timeChar, hd2]
                · subst hcol2; simp [timeChar]
              · simp [timeChar, hsp2]
          · simp [timeChar, hsp]
        · simp [timeChar, hd]
        · subst hcol; simp [timeChar]
      · exact absurd h (by simp)
    · exact absurd h (by simp)

theorem toLower_eq_self_of_timeChar (c : Char) (h : timeChar c = true) :
    Char.toLower c = c := by
  unfold timeChar at h
  simp only [Bool.or_eq_true] at h
  rcases h with ((hd | hcol) | hdash) | hsp
  · simp only [isDigitChar, Bool.and_eq_true, decide_eq_true_eq] at hd
    simp only [Char.toLower]
    rw [if_neg (by omega)]
  · rw [beq_iff_eq] at hcol; subst hcol; decide
  · rw [beq_iff_eq] at hdash; subst hdash; decide
  · simp only [isSpaceChar, Bool.or_eq_true, beq_iff_eq] at hsp
    rcases hsp with ((((h1 | h2) | h3) | h4) | h5) | h6 <;>
      (first
        | (subst h1; decide) | (subst h2; decide) | (subst h3; decide)
        | (subst h4; decide) | (subst h5; decide) | (subst h6; decide))

/-- A line matching the time pattern can never be the clash banner. -/
theorem timeRe_not_banner (cs : List Char) (h : timeRe cs = true) :
    bannerRe cs = false := by
  by_contra hb
  rw [Bool.not_eq_false] at hb
  unfold bannerRe containsSub at hb
  rw [List.any_eq_true] at hb
  obtain ⟨t, ht, hpre⟩ := hb
  rw [List.isPrefixOf_iff_prefix] at hpre
  have hcmem : 'c' ∈ t := hpre.subset (by decide)
  have ht' : t <:+ lowerList cs := (List.mem_tails _ _).mp ht
  have hcl : 'c' ∈ lowerList cs := ht'.subset hcmem
  unfold lowerList at hcl
  rw [List.mem_map] at hcl
  obtain ⟨c0, hc0, hlow⟩ := hcl
  have htc := timeRe_chars cs h c0 hc0
  rw [toLower_eq_self_of_timeChar c0 htc] at hlow
  subst hlow
  exact absurd htc (by decide)

theorem clashGo_length (ls : List String) : ∀ current : List String,
    (clashGo current ls).length =
      (if current == [] then 0 else 1) +
        ls.countP (fun l => !bannerRe l.toList && timeRe l.toList) := by
  induction ls with
  | nil =>
    intro current
    by_cases h : (current == []) = true
    · simp [clashGo, h]
    · rw [Bool.not_eq_true] at h
      simp [clashGo, h]
  | cons a rest ih =>
    intro current
    rw [List.countP_cons]
    have hunfold : clashGo current (a :: rest) =
        (if bannerRe a.toList then clashGo current rest
         else if timeRe a.toList then
           (if current == [] then [] else [current]) ++ clashGo [a] rest
         else if current == [] then clashGo current rest
         else clashGo (current ++ [a]) rest) := rfl
    rw [hunfold]
    cases hb : bannerRe a.toList with
    | true =>
      simp only [if_true]
      rw [ih current]
      simp
    | false =>
      simp only [Bool.false_eq_true, if_false]
      cases ht : timeRe a.toList with
      | true =>
        simp only [if_true]
        rw [List.length_append, ih [a]]
        cases hc : (current == []) <;> simp <;> omega
      | false =>
        simp only [Bool.false_eq_true, if_false]
        cases hc : (current == []) with
        | true =>
          simp only [if_true]
          rw [ih current, hc]
          simp
        | false =>
          simp only [Bool.false_eq_true, if_false]
          rw [ih (current ++ [a])]
          have h1 : (current ++ [a] == []) = false := by simp
          rw [h1]
          simp

theorem clashGo_mem (ls : List String) : ∀ (current g : List String) (l : String),
    g ∈ clashGo current ls → l ∈ g →
      l ∈ current ∨ (l ∈ ls ∧ bannerRe l.toList = false) := by
  induction ls with
  | nil =>
    intro current g l hg hl
    by_cases h : (current == []) = true
    · simp [clashGo, h] at hg
    · rw [Bool.not_eq_true] at h
      simp only [clashGo, h, Bool.false_eq_true, if_false, List.mem_singleton] at hg
      subst hg
      exact Or.inl hl
  | cons a rest ih =>
    intro current g l hg hl
    have hunfold : clashGo current (a :: rest) =
        (if bannerRe a.toList then clashGo current rest
         else if timeRe a.toList then
           (if current == [] then [] else [current]) ++ clashGo [a] rest
         else if current == [] then clashGo current rest
         else clashGo (current ++ [a]) rest) := rfl
    rw [hunfold] at hg
    by_cases hb : bannerRe a.toList = true
    · rw [if_pos hb] at hg
      rcases ih current g l hg hl with h | ⟨h1, h2⟩
      · exact Or.inl h
      · exact Or.inr ⟨List.mem_cons_of_mem _ h1, h2⟩
    · rw [if_neg hb] at hg
      rw [Bool.not_eq_true] at hb
      by_cases htm : timeRe a.toList = true
      · rw [if_pos htm, List.mem_append] at hg
        rcases hg with hg1 | hg2
        · by_cases hc : (current == []) = true
          · rw [if_pos hc] at hg1
            cases hg1
          · rw [if_neg hc, List.mem_singleton] at hg1
            subst hg1
            exact Or.inl hl
        · rcases ih [a] g l hg2 hl with h | ⟨h1, h2⟩
          · rcases List.mem_singleton.mp h with rfl
            exact Or.inr ⟨List.mem_cons_self _ _, hb⟩
          · exact Or.inr ⟨List.mem_cons_of_mem _ h1, h2⟩
      · rw [if_neg htm] at hg
        by_cases hc : (current == []) = true
        · rw [if_pos hc] at hg
          rcases ih current g l hg hl with h | ⟨h1, h2⟩
          · exact Or.inl h
          · exact Or.inr ⟨List.mem_cons_of_mem _ h1, h2⟩
        · rw [if_neg hc] at hg
          rcases ih (current ++ [a]) g l hg hl with h | ⟨h1, h2⟩
          · rcases List.mem_append.mp h with h' | h'
            · exact Or.inl h'
            · rcases List.mem_singleton.mp h' with rfl
              exact Or.inr ⟨List.mem_cons_self _ _, hb⟩
          · exact Or.inr ⟨List.mem_cons_of_mem _ h1, h2⟩

/-- C6: on a clash cell the splitter returns exactly as many groups as there
are lines matching the time-range pattern among the non-empty trimmed lines;
banner lines are excluded from all groups and empty lines are dropped. -/
theorem C6_clash_splitter (cellText : String) :
    (splitBlocks cellText true).length =
      (prepLines cellText).countP (fun l => timeRe l.toList) ∧
    ∀ g ∈ splitBlocks cellText true, ∀ l ∈ g,
      l ∈ prepLines cellText ∧ bannerRe l.toList = false ∧ l ≠ "" := by
  constructor
  · show (clashGo [] (prepLines cellText)).length = _
    rw [clashGo_length]
    have hcong : (prepLines cellText).countP (fun l => !bannerRe l.toList && timeRe l.toList) =
        (prepLines cellText).countP (fun l => timeRe l.toList) := by
      apply List.countP_congr
      intro l _
      by_cases ht : timeRe l.toList = true
      · rw [ht, timeRe_not_banner _ ht]; rfl
      · rw [Bool.not_eq_true] at ht
        rw [ht, Bool.and_false]
    rw [hcong]
    simp
  · intro g hg l hl
    have hmem := clashGo_mem (prepLines cellText) [] g l hg hl
    rcases hmem with h | ⟨h1, h2⟩
    · cases h
    · refine ⟨h1, h2, ?_⟩
      unfold prepLines at h1
      have := (List.mem_filter.mp h1).2
      simpa using this

/-- C6 witness: a clash cell with two time headers and the banner yields
exactly two groups, and every grouped line is a non-empty non-banner line of
the cell. -/
theorem C6_clash_splitter_witness :
    (splitBlocks "Clashing Events\n10:00 - 13:00\nBM4046 - A\n10:00 - 13:00\nBM4040 - B" true).length =
      (prepLines "Clashing Events\n10:00 - 13:00\nBM4046 - A\n10:00 - 13:00\nBM4040 - B").countP
        (fun l => timeRe l.toList) ∧
    (splitBlocks "Clashing Events\n10:00 - 13:00\nBM4046 - A\n10:00 - 13:00\nBM4040 - B" true).length = 2 ∧
    ∀ l ∈ ["10:00 - 13:00", "BM4046 - A"],
      l ∈ prepLines "Clashing Events\n10:00 - 13:00\nBM4046 - A\n10:00 - 13:00\nBM4040 - B" ∧
        bannerRe l.toList = false ∧ l ≠ "" := by
  refine ⟨(C6_clash_splitter _).1, by decide, ?_⟩
  intro l hl
  exact (C6_clash_splitter _).2 ["10:00 - 13:00", "BM4046 - A"] (by decide) l hl

/-- C7: on a non-clash cell the splitter returns exactly one group holding
all of the cell's non-empty trimmed lines in their original order. -/
theorem C7_nonclash_splitter (cellText : String) :
    splitBlocks cellText false = [prepLines cellText] ∧
    (splitBlocks cellText false).length = 1 := by
  constructor <;> rfl

/-! ### Classifier lemmas -/

/-- One classification step either keeps the time slot or fills it with the
current line, and only when that line matches the time pattern. -/
theorem classifyLine_time (s : Slots) (l : String) :
    (classifyLine s l).time = s.time ∨
      ((classifyLine s l).time = some l ∧ timeRe l.toList = true) := by
  unfold classifyLine
  split_ifs with h1 h2 h3 h4 h5 h6 h7 h8
  · right
    rw [Bool.and_eq_true] at h1
    exact ⟨rfl, h1.2⟩
  all_goals left; rfl

/-- Over a whole line-group, the time slot is either untouched or set
verbatim to one of the group's lines matching the time pattern. -/
theorem foldl_time (lines : List String) : ∀ s : Slots,
    (lines.foldl classifyLine s).time = s.time ∨
      ∃ l ∈ lines, (lines.foldl classifyLine s).time = some l ∧
        timeRe l.toList = true := by
  induction lines with
  | nil => intro s; left; rfl
  | cons a t ih =>
    intro s
    rw [List.foldl_cons]
    rcases ih (classifyLine s a) with heq | ⟨l, hl, heq, ht⟩
    · rcases classifyLine_time s a with h | ⟨h, ht⟩
      · left; rw [heq, h]
      · right; exact ⟨a, List.mem_cons_self _ _, heq.trans h, ht⟩
    · right; exact ⟨l, List.mem_cons_of_mem _ hl, heq, ht⟩

/-- One classification step either keeps the module slot or fills it with
the current line (through the module pattern or the final fallback). -/
theorem classifyLine_module (s : Slots) (l : String) :
    (classifyLine s l).module = s.module ∨ (classifyLine s l).module = some l := by
  unfold classifyLine
  split_ifs with h1 h2 h3 h4 h5 h6 h7 h8
  · exact Or.inl rfl
  · exact Or.inr rfl
  · exact Or.inl rfl
  · exact Or.inl rfl
  · exact Or.inl rfl
  · exact Or.inl rfl
  · exact Or.inl rfl
  · exact Or.inr rfl
  · exact Or.inl rfl

/-- One classification step either keeps the lecturer slot or fills it with
the current line, and only when one of the two lecturer patterns matches. -/
theorem classifyLine_lecturer (s : Slots) (l : String) :
    (classifyLine s l).lecturer = s.lecturer ∨
      ((classifyLine s l).lecturer = some l ∧
        (lecturerCommaRe l.toList = true ∨ lecturerUserRe l.toList = true)) := by
  unfold classifyLine
  split_ifs with h1 h2 h3 h4 h5 h6 h7 h8
  · exact Or.inl rfl
  · exact Or.inl rfl
  · exact Or.inl rfl
  · exact Or.inl rfl
  · exact Or.inl rfl
  · rw [Bool.and_eq_true] at h6
    exact Or.inr ⟨rfl, Or.inl h6.2⟩
  · rw [Bool.and_eq_true] at h7
    exact Or.inr ⟨rfl, Or.inr h7.2⟩
  · exact Or.inl rfl
  · exact Or.inl rfl

/-- One classification step either keeps the session-type slot or fills it
with the current line, and only when a session pattern matches. -/
theorem classifyLine_session (s : Slots) (l : String) :
    (classifyLine s l).sessionType = s.sessionType ∨
      ((classifyLine s l).sessionType = some l ∧
        (sessionStart l.toList = true ∨ campusEnd l.toList = true)) := by
  unfold classifyLine
  split_ifs with h1 h2 h3 h4 h5 h6 h7 h8
  · exact Or.inl rfl
  · exact Or.inl rfl
  · exact Or.inl rfl
  · rw [Bool.and_eq_true] at h4
    exact Or.inr ⟨rfl, Or.inl h4.2⟩
  · rw [Bool.and_eq_true] at h5
    exact Or.inr ⟨rfl, Or.inr h5.2⟩
  · exact Or.inl rfl
  · exact Or.inl rfl
  · exact Or.inl rfl
  · exact Or.inl rfl

/-- One classification step either keeps the group-cohort slot or fills it
with the cohort captured from the current line. -/
theorem classifyLine_group (s : Slots) (l : String) :
    (classifyLine s l).groupCohort = s.groupCohort ∨
      ∃ g, cohortMatch l.toList = some g ∧
        (classifyLine s l).groupCohort = some g := by
  unfold classifyLine
  split_ifs with h1 h2 h3 h4 h5 h6 h7 h8
  · exact Or.inl rfl
  · exact Or.inl rfl
  · rw [Bool.and_eq_true] at h3
    obtain ⟨g, hg⟩ := Option.isSome_iff_exists.mp h3.2
    refine Or.inr ⟨g, hg, ?_⟩
    show some ((cohortMatch l.toList).getD "") = some g
    rw [hg]
    rfl
  · exact Or.inl rfl
  · exact Or.inl rfl
  · exact Or.inl rfl
  · exact Or.inl rfl
  · exact Or.inl rfl
  · exact Or.inl rfl

/-- Over a whole line-group, the module slot is either untouched or set
verbatim to one of the group's lines. -/
theorem foldl_module (lines : List String) : ∀ s : Slots,
    (lines.foldl classifyLine s).module = s.module ∨
      ∃ l ∈ lines, (lines.foldl classifyLine s).module = some l := by
  induction lines with
  | nil => intro s; left; rfl
  | cons a t ih =>
    intro s
    rw [List.foldl_cons]
    rcases ih (classifyLine s a) with heq | ⟨l, hl, heq⟩
    · rcases classifyLine_module s a with h | h
      · left; rw [heq, h]
      · right; exact ⟨a, List.mem_cons_self _ _, heq.trans h⟩
    · right; exact ⟨l, List.mem_cons_of_mem _ hl, heq⟩

/-- Over a whole line-group, the lecturer slot is either untouched or set
verbatim to one of the group's lines matching a lecturer pattern. -/
theorem foldl_lecturer (lines : List String) : ∀ s : Slots,
    (lines.foldl classifyLine s).lecturer = s.lecturer ∨
      ∃ l ∈ lines, (lines.foldl classifyLine s).lecturer = some l ∧
        (lecturerCommaRe l.toList = true ∨ lecturerUserRe l.toList = true) := by
  induction lines with
  | nil => intro s; left; rfl
  | cons a t ih =>
    intro s
    rw [List.foldl_cons]
    rcases ih (classifyLine s a) with heq | ⟨l, hl, heq, hp⟩
    · rcases classifyLine_lecturer s a with h | ⟨h, hp⟩
      · left; rw [heq, h]
      · right; exact ⟨a, List.mem_cons_self _ _, heq.trans h, hp⟩
    · right; exact ⟨l, List.mem_cons_of_mem _ hl, heq, hp⟩

/-- Over a whole line-group, the session-type slot is either untouched or
set verbatim to one of the group's lines matching a session pattern. -/
theorem foldl_session (lines : List String) : ∀ s : Slots,
    (lines.foldl classifyLine s).sessionType = s.sessionType ∨
      ∃ l ∈ lines, (lines.foldl classifyLine s).sessionType = some l ∧
        (sessionStart l.toList = true ∨ campusEnd l.toList = true) := by
  induction lines with
  | nil => intro s; left; rfl
  | cons a t ih =>
    intro s
    rw [List.foldl_cons]
    rcases ih (classifyLine s a) with heq | ⟨l, hl, heq, hp⟩
    · rcases classifyLine_session s a with h | ⟨h, hp⟩
      · left; rw [heq, h]
      · right; exact ⟨a, List.mem_cons_self _ _, heq.trans h, hp⟩
    · right; exact ⟨l, List.mem_cons_of_mem _ hl, heq, hp⟩

/-- Over a whole line-group, the group-cohort slot is either untouched or
set to the cohort captured from one of the group's lines. -/
theorem foldl_group (lines : List String) : ∀ s : Slots,
    (lines.foldl classifyLine s).groupCohort = s.groupCohort ∨
      ∃ l ∈ lines, ∃ g, cohortMatch l.toList = some g ∧
        (lines.foldl classifyLine s).groupCohort = some g := by
  induction lines with
  | nil => intro s; left; rfl
  | cons a t ih =>
    intro s
    rw [List.foldl_cons]
    rcases ih (classifyLine s a) with heq | ⟨l, hl, g, hg, heq⟩
    · rcases classifyLine_group s a with h | ⟨g, hg, h⟩
      · left; rw [heq, h]
      · right; exact ⟨a, List.mem_cons_self _ _, g, hg, heq.trans h⟩
    · right; exact ⟨l, List.mem_cons_of_mem _ hl, g, hg, heq⟩

/-- C8: the classifier is a total function on arbitrary line-groups (it is a
plain fold and can never throw); every field slot is either unset or holds
data taken verbatim from one of the input lines, and each slot stays unset
whenever no input line matches its patterns: the time slot round-trips a
time-pattern line exactly; the lecturer, session-type and group-cohort
slots are set only by their own patterns; the module slot only ever holds
one of the input lines verbatim (it can be filled by the module pattern or,
per the best-effort fallback, by an otherwise unclassified line). -/
theorem C8_classifier_total (lines : List String) :
    ((classify lines).time = none ∨
      ∃ l ∈ lines, (classify lines).time = some l ∧ timeRe l.toList = true) ∧
    ((∀ l ∈ lines, timeRe l.toList = false) → (classify lines).time = none) ∧
    ((classify lines).module = none ∨
      ∃ l ∈ lines, (classify lines).module = some l) ∧
    ((classify lines).lecturer = none ∨
      ∃ l ∈ lines, (classify lines).lecturer = some l ∧
        (lecturerCommaRe l.toList = true ∨ lecturerUserRe l.toList = true)) ∧
    ((∀ l ∈ lines, lecturerCommaRe l.toList = false ∧
        lecturerUserRe l.toList = false) → (classify lines).lecturer = none) ∧
    ((classify lines).sessionType = none ∨
      ∃ l ∈ lines, (classify lines).sessionType = some l ∧
        (sessionStart l.toList = true ∨ campusEnd l.toList = true)) ∧
    ((∀ l ∈ lines, sessionStart l.toList = false ∧ campusEnd l.toList = false) →
      (classify lines).sessionType = none) ∧
    ((classify lines).groupCohort = none ∨
      ∃ l ∈ lines, ∃ g, cohortMatch l.toList = some g ∧
        (classify lines).groupCohort = some g) ∧
    ((∀ l ∈ lines, cohortMatch l.toList = none) →
      (classify lines).groupCohort = none) := by
  have htime := foldl_time lines {}
  have hmod := foldl_module lines {}
  have hlec := foldl_lecturer lines {}
  have hses := foldl_session lines {}
  have hgrp := foldl_group lines {}
  refine ⟨htime, ?_, hmod, hlec, ?_, hses, ?_, hgrp, ?_⟩
  · intro hnone
    rcases htime with h | ⟨l, hl, heq, ht⟩
    · exact h
    · rw [hnone l hl] at ht
      cases ht
  · intro hnone
    rcases hlec with h | ⟨l, hl, heq, hp | hp⟩
    · exact h
    · rw [(hnone l hl).1] at hp
      cases hp
    · rw [(hnone l hl).2] at hp
      cases hp
  · intro hnone
    rcases hses with h | ⟨l, hl, heq, hp | hp⟩
    · exact h
    · rw [(hnone l hl).1] at hp
      cases hp
    · rw [(hnone l hl).2] at hp
      cases hp
  · intro hnone
    rcases hgrp with h | ⟨l, hl, g, hg, heq⟩
    · exact h
    · rw [hnone l hl] at hg
      cases hg

/-- C8 witness: a group with no time-shaped line leaves the time slot
unset, and a group whose lines match none of the lecturer, session or
cohort patterns leaves those slots unset. -/
theorem C8_classifier_total_witness :
    (classify ["hello"]).time = none ∧
    (classify ["09:00 - 10:00", "CO2401 - X"]).lecturer = none ∧
    (classify ["09:00 - 10:00", "CO2401 - X"]).sessionType = none ∧
    (classify ["09:00 - 10:00", "CO2401 - X"]).groupCohort = none :=
  ⟨(C8_classifier_total ["hello"]).2.1 (by decide),
   (C8_classifier_total ["09:00 - 10:00", "CO2401 - X"]).2.2.2.2.1 (by decide),
   (C8_classifier_total ["09:00 - 10:00", "CO2401 - X"]).2.2.2.2.2.2.1 (by decide),
   (C8_classifier_total ["09:00 - 10:00", "CO2401 - X"]).2.2.2.2.2.2.2.2 (by decide)⟩

/-! ### Module-slot priority (C5) -/

/-- The module-line shape exactly as the claim words it: a 2–4 letter
prefix, 3–6 digits, an optional trailing letter, then a separator (`-`, `:`
or an en-dash).  Stated from the spec's words, to be compared with the
code's `moduleRe`. -/
def specModuleShape (cs : List Char) : Bool :=
  let letters := cs.takeWhile isAlphaChar
  let rest1 := cs.dropWhile isAlphaChar
  if letters.length < 2 || 4 < letters.length then false
  else
    let digits := rest1.takeWhile isDigitChar
    let rest2 := rest1.dropWhile isDigitChar
    if digits.length < 3 || 6 < digits.length then false
    else
      let rest3 := match rest2 with
        | c :: r => if isAlphaChar c then r else rest2
        | [] => []
      match rest3 with
      | c :: _ => c == '-' || c == ':' || c == '\u2013'
      | [] => false

/-- C5 counterexample: `"Lab123456- X"` matches the claimed 3–6-digit module
shape, yet the classifier assigns it to the session-type slot and leaves the
module slot unset (the code's pattern stops at 5 digits, so the session
keyword `Lab` wins); conversely `"???"` matches no shape at all and is still
classified as module by the fallback, refuting the claimed
"exactly when". -/
theorem C5_counterexample :
    specModuleShape "Lab123456- X".toList = true ∧
    (classify ["10:00 - 11:00", "Lab123456- X"]).module = none ∧
    (classify ["10:00 - 11:00", "Lab123456- X"]).sessionType = some "Lab123456- X" ∧
    specModuleShape "???".toList = false ∧
    (classify ["10:00 - 11:00", "???"]).module = some "???" := by
  decide

theorem moduleRe_head_alpha (cs : List Char) (h : moduleRe cs = true) :
    ∃ c r, cs = c :: r ∧ isAlphaChar c = true := by
  match cs with
  | [] => simp [moduleRe] at h
  | c :: r =>
    by_cases hc : isAlphaChar c = true
    · exact ⟨c, r, rfl, hc⟩
    · rw [Bool.not_eq_true] at hc
      exfalso
      unfold moduleRe at h
      rw [List.takeWhile_cons, hc] at h
      simp at h

theorem timeRe_head_digit (cs : List Char) (h : timeRe cs = true) :
    ∃ c r, cs = c :: r ∧ isDigitChar c = true := by
  unfold timeRe at h
  split at h
  · exact absurd h (by simp)
  · rename_i r1 htp
    unfold timePairM at htp
    split at htp
    · exact absurd htp (by simp)
    · rename_i x ra r2 h12
      match cs, h12 with
      | c1 :: c2 :: t, h12 =>
        refine ⟨c1, c2 :: t, rfl, ?_⟩
        by_cases hd : isDigitChar c1 = true
        · exact hd
        · rw [Bool.not_eq_true] at hd
          simp [matchD12, hd] at h12
      | [c1], h12 =>
        refine ⟨c1, [], rfl, ?_⟩
        by_cases hd : isDigitChar c1 = true
        · exact hd
        · rw [Bool.not_eq_true] at hd
          simp [matchD12, hd] at h12

theorem alpha_not_digit (c : Char) (h : isAlphaChar c = true) :
    isDigitChar c = false := by
  simp only [isAlphaChar, isUpperChar, isLowerChar, Bool.or_eq_true,
    Bool.and_eq_true, decide_eq_true_eq] at h
  simp only [isDigitChar, Bool.and_eq_true, decide_eq_true_eq,
    Bool.and_eq_false_iff, decide_eq_false_iff_not]
  omega

/-- A line matching the module pattern can never match the time pattern
(their first characters are a letter and a digit respectively). -/
theorem moduleRe_not_time (cs : List Char) (h : moduleRe cs = true) :
    timeRe cs = false := by
  by_contra ht
  rw [Bool.not_eq_false] at ht
  obtain ⟨c, r, rfl, ha⟩ := moduleRe_head_alpha cs h
  obtain ⟨c2, r2, heq, hd⟩ := timeRe_head_digit _ ht
  rw [List.cons.injEq] at heq
  rw [heq.1] at ha
  rw [alpha_not_digit c2 ha] at hd
  cases hd

/-- C5 amended: while the module slot is empty, a line matching the code's
module pattern (2–4 letters, 3–5 digits, optional trailing letter, optional
spaces, then a separator) always claims the module slot, even when it also
matches the group, session-type or lecturer patterns; and the module slot
only ever changes by taking the line itself, when it was previously
empty. -/
theorem C5_module_priority (s : Slots) (line : String) :
    (falsy s.module = true → moduleRe line.toList = true →
      (classifyLine s line).module = some line) ∧
    ((classifyLine s line).module ≠ s.module →
      falsy s.module = true ∧ (classifyLine s line).module = some line) := by
  constructor
  · intro hm hre
    unfold classifyLine
    rw [if_neg (by rw [moduleRe_not_time _ hre, Bool.and_false]; simp)]
    rw [if_pos (by rw [hm, hre]; rfl)]
  · intro hchange
    unfold classifyLine at hchange ⊢
    split_ifs at hchange ⊢ with h1 h2 h3 h4 h5 h6 h7 h8
    · exact absurd rfl hchange
    · rw [Bool.and_eq_true] at h2
      exact ⟨h2.1, rfl⟩
    · exact absurd rfl hchange
    · exact absurd rfl hchange
    · exact absurd rfl hchange
    · exact absurd rfl hchange
    · exact absurd rfl hchange
    · exact ⟨h8, rfl⟩
    · exact absurd rfl hchange

/-- C5 witness: with the time slot already taken, `"Lab12345- X"` (3–5
digits) matches both the module pattern and the session keyword pattern, and
the module slot wins. -/
theorem C5_module_priority_witness :
    (classifyLine ⟨some "10:00 - 11:00", none, none, none, none⟩
        "Lab12345- X").module = some "Lab12345- X" :=
  (C5_module_priority ⟨some "10:00 - 11:00", none, none, none, none⟩
      "Lab12345- X").1 (by decide) (by decide)

/-! ### Timetable Page Parser (`src/scraping.ts` lines 104–359) -/

/-- `TimetableEntry` as pushed by `scrapeRoomTimeTable` (lines 326–337);
`startMin`/`endMin` are the absolute timestamps (`startDateString` /
`endDateString`) in minutes since day 0. -/
structure TimetableEntry where
  topIdx : Nat
  slotInDay : Nat
  time : String
  module : String
  lecturer : String
  group : String
  roomName : String
  day : String
  startMin : Nat
  endMin : Nat
deriving Repr, DecidableEq

/-- date-fns `parse(t.trim(), "HH:mm", dayDate)` followed by `format`:
succeeds exactly on `\d{1,2}:\d{2}` with hour ≤ 23 and minute ≤ 59
(otherwise the source logs the parse error and skips the block); returns
minutes within the day. -/
def parseHHmm (s : String) : Option Nat :=
  match s.toList with
  | [h1, ':', m1, m2] =>
    if isDigitChar h1 && isDigitChar m1 && isDigitChar m2 then
      let h := h1.toNat - 48
      let m := (m1.toNat - 48) * 10 + (m2.toNat - 48)
      if h ≤ 23 && m ≤ 59 then some (h * 60 + m) else none
    else none
  | [h1, h2, ':', m1, m2] =>
    if isDigitChar h1 && isDigitChar h2 && isDigitChar m1 && isDigitChar m2 then
      let h := (h1.toNat - 48) * 10 + (h2.toNat - 48)
      let m := (m1.toNat - 48) * 10 + (m2.toNat - 48)
      if h ≤ 23 && m ≤ 59 then some (h * 60 + m) else none
    else none
  | _ => none

/-- First occurrence of `sep` in a list: the part before and after it. -/
def findSub (sep : List Char) : List Char → Option (List Char × List Char)
  | [] => none
  | c :: r =>
    if sep.isPrefixOf (c :: r) then some ([], (c :: r).drop sep.length)
    else
      match findSub sep r with
      | some (pre, post) => some (c :: pre, post)
      | none => none

/-- Fuel-bounded splitting on a literal separator (JS `split(sep)`); the
fuel `cs.length + 1` always suffices for a non-empty separator. -/
def splitOnSubGo (sep : List Char) : Nat → List Char → List (List Char)
  | 0, cs => [cs]
  | fuel + 1, cs =>
    match findSub sep cs with
    | none => [cs]
    | some (pre, post) => pre :: splitOnSubGo sep fuel post

/-- JS `String.prototype.split` with a literal separator. -/
def jsSplitOnSub (sep : List Char) (cs : List Char) : List (List Char) :=
  splitOnSubGo sep (cs.length + 1) cs

/-- `time.split(" - ")` destructured into `[startTime, endTime]`, the
falsiness checks, and the two date-fns parses (lines 313–324): the absolute
start/end timestamps, or `none` when the source skips the block. -/
def mkTimestamps (dayDate : Nat) (time : String) : Option (Nat × Nat) :=
  match jsSplitOnSub " - ".toList time.toList with
  | st :: en :: _ =>
    if st == [] || en == [] then none
    else
      match parseHHmm (jsTrim (String.mk st)), parseHHmm (jsTrim (String.mk en)) with
      | some sm, some em => some (dayDate * 1440 + sm, dayDate * 1440 + em)
      | _, _ => none
  | _ => none

/-- One split block to at most one entry (lines 238–344): at least two
lines, both time and module classified, the time splits and parses; the
entry records the classifier's fields with the JS `|| ""` defaults. -/
def processBlock (roomName day : String) (dayDate rowIdx colIdx : Nat)
    (block : List String) : List TimetableEntry :=
  if block.length < 2 then []
  else
    let s := classify block
    if falsy s.time || falsy s.module then []
    else
      match mkTimestamps dayDate (s.time.getD "") with
      | none => []
      | some (st, en) =>
        [{ topIdx := rowIdx + 1, slotInDay := colIdx,
           time := s.time.getD "", module := s.module.getD "",
           lecturer := s.lecturer.getD "", group := s.groupCohort.getD "",
           roomName := roomName, day := day, startMin := st, endMin := en }]

/-- The class names marking an occupied slot (`VALID_EVENT_CLASSNAMES`). -/
def VALID_EVENT_CLASSNAMES : List String :=
  ["scan_open", "TimeTableEvent", "TimeTableCurrentEvent", "TimeTableClash"]

/-- One `td` cell (lines 184–347): eligibility by substring containment of a
valid event class, clash detection by exact class equality, then the block
split and per-block processing.  `cellRaw` is the cell text with `<br>`
already replaced by newlines. -/
def processCell (roomName day : String) (dayDate rowIdx colIdx : Nat)
    (className cellRaw : String) : List TimetableEntry :=
  if VALID_EVENT_CLASSNAMES.any (fun v => containsSub className.toList v.toList) then
    let columnText := jsTrim cellRaw
    if columnText == "" then []
    else
      (splitBlocks columnText (className == "TimeTableClash")).flatMap
        (processBlock roomName day dayDate rowIdx colIdx)
  else []

/-- One table row (lines 146–348): the resolved day text must be canonical
(non-data rows are skipped), the day resolves to a date, and each cell
contributes its entries.  The layout-specific day-name extraction (`th`
versus abbreviated first `td`) is abstracted as the given `dayFullName`. -/
def processRow (today : Nat) (roomName dayFullName : String) (rowIdx : Nat)
    (cells : List (String × String)) : List TimetableEntry :=
  if !(daysOfWeek.contains dayFullName) then []
  else
    match getNextOccurrenceOfDay today dayFullName with
    | none => []
    | some dayDate =>
      cells.enum.flatMap (fun p =>
        processCell roomName dayFullName dayDate rowIdx p.1 p.2.1 p.2.2)

/-- A fetched page, abstracted as its rows (resolved day text and
`(className, cellText)` cells). -/
def scrapePage (today : Nat) (roomName : String)
    (rows : List (String × List (String × String))) : List TimetableEntry :=
  rows.enum.flatMap (fun p => processRow today roomName p.2.1 p.1 p.2.2)

/-! ### Fetch and the try/catch of `scrapeRoomTimeTable` (C1) -/

/-- The outcome of the HTTP fetch for one room: a rejected promise (network
error) or a response with an HTTP status and page content. -/
inductive FetchOutcome where
  | networkError (msg : String)
  | response (status : Nat) (rows : List (String × List (String × String)))

/-- The body of the `try` block in `scrapeRoomTimeTable`: throws
(`Except.error`) on a rejected fetch or on `!response.ok` (status outside
200–299), otherwise parses the page. -/
def scrapeAttempt (roomName : String) (today : Nat) :
    FetchOutcome → Except String (List TimetableEntry)
  | .networkError msg => .error msg
  | .response status rows =>
    if status < 200 || 299 < status then
      .error ("Failed to fetch: Status " ++ toString status)
    else .ok (scrapePage today roomName rows)

/-- `scrapeRoomTimeTable` (lines 104–359): the `catch` handler only logs —
the `throw error` is commented out — and control falls through to
`return output` with the output still empty, so the function always
resolves normally. -/
def scrapeRoomTimeTable (roomName : String) (today : Nat)
    (fetched : FetchOutcome) : Except String (List TimetableEntry) :=
  match scrapeAttempt roomName today fetched with
  | .error _ => .ok []
  | .ok entries => .ok entries

/-! ### Scrape orchestrator state machine (`src/scripts/scrape-core.ts`) -/

def MAX_ATTEMPTS : Nat := 3

/-- A `scrape_log` row (schema in `src/scripts/db.ts` lines 71–81). -/
structure ScrapeLogRow where
  status : String
  attempts : Nat
  last_attempt : Option String
  error_message : Option String
  events_found : Nat
deriving Repr, DecidableEq

/-- The prepared statement `UPDATE scrape_log SET status = ?, attempts =
attempts + 1, last_attempt = ?, error_message = ?, events_found = ?`
(lines 98–102). -/
def updateScrapeLog (row : ScrapeLogRow) (status ts : String)
    (err : Option String) (ev : Nat) : ScrapeLogRow :=
  { status := status, attempts := row.attempts + 1, last_attempt := some ts,
    error_message := err, events_found := ev }

/-- One attempt's outcome for a room: resolved with `n` entries, or threw
with an error message (`ts` is the wall-clock timestamp). -/
inductive AttemptOutcome where
  | success (n : Nat) (ts : String)
  | failure (msg : String) (ts : String)

/-- The per-attempt `scrape_log` update in `runScrape` (lines 196–223):
success marks the row `success`; a failure marks it `failed` exactly when
the incremented attempts reach `MAX_ATTEMPTS`, else leaves it `pending`,
recording the error message. -/
def roomStep (row : ScrapeLogRow) : AttemptOutcome → ScrapeLogRow
  | .success n ts => updateScrapeLog row "success" ts none n
  | .failure msg ts =>
    updateScrapeLog row
      (if MAX_ATTEMPTS ≤ row.attempts + 1 then "failed" else "pending")
      ts (some msg) 0

/-- Eligibility in `getPendingRooms`:
`status IN ('pending','failed') AND attempts < 3` (lines 91–96). -/
def eligible (row : ScrapeLogRow) : Bool :=
  (row.status == "pending" || row.status == "failed") &&
    row.attempts < MAX_ATTEMPTS

/-- The orchestrator's repeated passes restricted to a single room: the room
is re-attempted (consuming the next outcome) while it stays eligible. -/
def runRoom (row : ScrapeLogRow) : List AttemptOutcome → ScrapeLogRow
  | [] => row
  | o :: os => if eligible row then runRoom (roomStep row o) os else row

/-- A fresh `scrape_log` row (`INSERT ... 'pending'`, `attempts` defaults
to 0). -/
def freshLogRow : ScrapeLogRow :=
  { status := "pending", attempts := 0, last_attempt := none,
    error_message := none, events_found := 0 }

/-! ### C1: fetch failure handling -/

/-- C1 (code-bug evidence): `scrapeRoomTimeTable` never rejects — every
outcome resolves normally with `Except.ok` — although the `try` body does
throw on a failing fetch (here a 401 response).  The swallowed failure
surfaces as a normal empty result, which the orchestrator's success path
then records as `status = "success"`, so the caller gets no retry signal. -/
theorem C1_fetch_failure_swallowed :
    (∀ (roomName : String) (today : Nat) (fetched : FetchOutcome),
      ∃ l, scrapeRoomTimeTable roomName today fetched = .ok l) ∧
    scrapeRoomTimeTable "CM017" 0 (.response 401 []) = .ok [] ∧
    scrapeAttempt "CM017" 0 (.response 401 []) =
      .error "Failed to fetch: Status 401" ∧
    (roomStep freshLogRow (.success 0 "ts")).status = "success" := by
  refine ⟨?_, rfl, rfl, rfl⟩
  intro roomName today fetched
  unfold scrapeRoomTimeTable
  cases h : scrapeAttempt roomName today fetched with
  | error e => exact ⟨[], rfl⟩
  | ok l => exact ⟨l, rfl⟩

/-! ### C2: scrape-log state machine -/

/-- C2: each attempt follows the scrape-log state machine — a successful
attempt sets `success` (incrementing attempts, recording the event count); a
failing attempt increments attempts and becomes `failed` exactly when the
incremented attempts reach the bound of 3, else stays `pending`, recording
the error; and a room failing all three attempts ends `failed` with
`attempts = 3` and the last error recorded. -/
theorem C2_scrape_log_state_machine :
    (∀ (row : ScrapeLogRow) (n : Nat) (ts : String),
      (roomStep row (.success n ts)).status = "success" ∧
      (roomStep row (.success n ts)).attempts = row.attempts + 1 ∧
      (roomStep row (.success n ts)).events_found = n) ∧
    (∀ (row : ScrapeLogRow) (msg ts : String), row.attempts < MAX_ATTEMPTS →
      (roomStep row (.failure msg ts)).attempts = row.attempts + 1 ∧
      (roomStep row (.failure msg ts)).status =
        (if row.attempts + 1 = MAX_ATTEMPTS then "failed" else "pending") ∧
      (roomStep row (.failure msg ts)).error_message = some msg) ∧
    (∀ m1 m2 m3 t1 t2 t3 : String,
      runRoom freshLogRow [.failure m1 t1, .failure m2 t2, .failure m3 t3] =
        { status := "failed", attempts := 3, last_attempt := some t3,
          error_message := some m3, events_found := 0 }) := by
  refine ⟨fun row n ts => ⟨rfl, rfl, rfl⟩, ?_, fun m1 m2 m3 t1 t2 t3 => rfl⟩
  intro row msg ts hlt
  refine ⟨rfl, ?_, rfl⟩
  show (if MAX_ATTEMPTS ≤ row.attempts + 1 then "failed" else "pending") = _
  by_cases hc : row.attempts + 1 = MAX_ATTEMPTS
  · rw [if_pos (by omega), if_pos hc]
  · rw [if_neg ?_, if_neg hc]
    unfold MAX_ATTEMPTS at hlt hc ⊢
    omega

/-- C2 witness: the failure branch applied to a fresh row. -/
theorem C2_scrape_log_state_machine_witness :
    (roomStep freshLogRow (.failure "boom" "t1")).attempts = freshLogRow.attempts + 1 ∧
    (roomStep freshLogRow (.failure "boom" "t1")).status =
      (if freshLogRow.attempts + 1 = MAX_ATTEMPTS then "failed" else "pending") ∧
    (roomStep freshLogRow (.failure "boom" "t1")).error_message = some "boom" :=
  C2_scrape_log_state_machine.2.1 freshLogRow "boom" "t1" (by decide)

/-! ### C9: entry invariants -/

theorem parseHHmm_lt (s : String) (v : Nat) (h : parseHHmm s = some v) :
    v < 1440 := by
  unfold parseHHmm at h
  split at h
  · dsimp only at h
    split_ifs at h with h1 h2
    simp only [Bool.and_eq_true, decide_eq_true_eq] at h2
    rw [Option.some.injEq] at h
    omega
  · dsimp only at h
    split_ifs at h with h1 h2
    simp only [Bool.and_eq_true, decide_eq_true_eq] at h2
    rw [Option.some.injEq] at h
    omega
  · exact absurd h (by simp)

theorem mkTimestamps_shape (dayDate : Nat) (time : String) (st en : Nat)
    (h : mkTimestamps dayDate time = some (st, en)) :
    ∃ sm em, sm < 1440 ∧ em < 1440 ∧
      st = dayDate * 1440 + sm ∧ en = dayDate * 1440 + em := by
  unfold mkTimestamps at h
  split at h
  · split_ifs at h with h1
    split at h
    · rename_i sm em hsm hem
      rw [Option.some.injEq, Prod.mk.injEq] at h
      exact ⟨sm, em, parseHHmm_lt _ _ hsm, parseHHmm_lt _ _ hem, h.1.symm, h.2.symm⟩
    · exact absurd h (by simp)
  · exact absurd h (by simp)

theorem processBlock_shape (roomName day : String) (dayDate rowIdx colIdx : Nat)
    (block : List String) (e : TimetableEntry)
    (he : e ∈ processBlock roomName day dayDate rowIdx colIdx block) :
    e.day = day ∧ ∃ sm em, sm < 1440 ∧ em < 1440 ∧
      e.startMin = dayDate * 1440 + sm ∧ e.endMin = dayDate * 1440 + em := by
  unfold processBlock at he
  dsimp only at he
  split_ifs at he with h1 h2
  · cases he
  · cases he
  · split at he
    · cases he
    · rename_i st en hts
      rw [List.mem_singleton] at he
      subst he
      obtain ⟨sm, em, hsm, hem, hst, hen⟩ := mkTimestamps_shape _ _ _ _ hts
      exact ⟨rfl, sm, em, hsm, hem, hst, hen⟩

/-- C9 amended: every entry the row parser produces carries a canonical
weekday name, and both its timestamps land on the resolved day, so
`start < end` holds exactly when the parsed start time-of-day precedes the
end time-of-day — equal or inverted ranges are not rejected. -/
theorem C9_entry_invariants (today : Nat) (roomName dayFullName : String)
    (rowIdx : Nat) (cells : List (String × String)) (e : TimetableEntry)
    (he : e ∈ processRow today roomName dayFullName rowIdx cells) :
    e.day ∈ daysOfWeek ∧
    ∃ d sm em, sm < 1440 ∧ em < 1440 ∧
      e.startMin = d * 1440 + sm ∧ e.endMin = d * 1440 + em ∧
      (e.startMin < e.endMin ↔ sm < em) := by
  unfold processRow at he
  split_ifs at he with hday
  · cases he
  · rw [Bool.not_eq_true', Bool.not_eq_false] at hday
    split at he
    · cases he
    · rename_i dayDate hocc
      rw [List.mem_flatMap] at he
      obtain ⟨p, hp, hcell⟩ := he
      unfold processCell at hcell
      dsimp only at hcell
      split_ifs at hcell with hcls hempty
      · cases hcell
      · rw [List.mem_flatMap] at hcell
        obtain ⟨block, hblock, hbe⟩ := hcell
        obtain ⟨hd, sm, em, hsm, hem, hst, hen⟩ :=
          processBlock_shape _ _ _ _ _ _ _ hbe
        refine ⟨?_, dayDate, sm, em, hsm, hem, hst, hen, ?_⟩
        · rw [hd]
          exact List.mem_of_elem_eq_true hday
        · rw [hst, hen]
          omega
      · cases hcell

/-- C9 counterexample: the cell `"09:00 - 09:00\nCO2401 - X"` is parsed into
an entry whose start and end timestamps are equal, so the claimed strict
`start < end` invariant fails on the code. -/
theorem C9_counterexample :
    (processRow 0 "CM017" "Monday" 0
        [("TimeTableEvent", "09:00 - 09:00\nCO2401 - X")]).map
      (fun e => (e.day, e.startMin, e.endMin)) = [("Monday", 1980, 1980)] ∧
    ¬(1980 < 1980) := by
  exact ⟨by decide, by omega⟩

/-- C9 witness: the entry of a well-formed cell satisfies the amended
invariants. -/
theorem C9_entry_invariants_witness :
    ∃ e : TimetableEntry,
      e ∈ processRow 0 "CM017" "Monday" 0
          [("TimeTableEvent", "09:00 - 10:00\nCO2401 - X")] ∧
      e.day ∈ daysOfWeek ∧
      (∃ d sm em, sm < 1440 ∧ em < 1440 ∧
        e.startMin = d * 1440 + sm ∧ e.endMin = d * 1440 + em ∧
        (e.startMin < e.endMin ↔ sm < em)) := by
  refine ⟨{ topIdx := 1, slotInDay := 0, time := "09:00 - 10:00",
            module := "CO2401 - X", lecturer := "", group := "",
            roomName := "CM017", day := "Monday",
            startMin := 1980, endMin := 2040 }, by decide, ?_⟩
  exact C9_entry_invariants 0 "CM017" "Monday" 0
    [("TimeTableEvent", "09:00 - 10:00\nCO2401 - X")] _ (by decide)

/-! ### Lecturer Extractor (`src/scripts/lecturer-utils.ts`) -/

/-- Lazy close of `\(.*?\)`: the segment up to the next `)`, failing on a
newline (`.` does not cross lines). -/
def findCloseNoNL : List Char → Option (List Char)
  | [] => none
  | c :: r =>
    if c = ')' then some r
    else if c = '\n' then none
    else findCloseNoNL r

/-- `raw.replace(/\(.*?\)/g, " ")`: each lazily matched parenthesised group
becomes one space; an unmatched `(` stays.  Fuel-bounded recursion
(`length + 1` always suffices). -/
def replaceParensGo : Nat → List Char → List Char
  | 0, l => l
  | _ + 1, [] => []
  | fuel + 1, c :: r =>
    if c = '(' then
      match findCloseNoNL r with
      | some after => ' ' :: replaceParensGo fuel after
      | none => c :: replaceParensGo fuel r
    else c :: replaceParensGo fuel r

def replaceParens (l : List Char) : List Char := replaceParensGo (l.length + 1) l

/-- `.replace(/\s+/g, " ")`: every whitespace run becomes one space. -/
def collapseWsGo : Nat → List Char → List Char
  | 0, l => l
  | _ + 1, [] => []
  | fuel + 1, c :: r =>
    if isSpaceChar c then ' ' :: collapseWsGo fuel (r.dropWhile isSpaceChar)
    else c :: collapseWsGo fuel r

def collapseWs (l : List Char) : List Char := collapseWsGo (l.length + 1) l

/-- JS `\w`, for the `\b` boundaries of `\band\b`. -/
def isWordChar (c : Char) : Bool := isAlphaChar c || isDigitChar c || c == '_'

/-- The alternation `\/|&amp;|&|\band\b` (case-insensitive) attempted at the
head of `t`, with `prev` the character just before; returns the consumed
length. -/
def sepAltMain (prev : Option Char) (t : List Char) : Option Nat :=
  match t with
  | '/' :: _ => some 1
  | _ =>
    if lowerList (t.take 5) == "&amp;".toList then some 5
    else
      match t with
      | '&' :: _ => some 1
      | _ =>
        if lowerList (t.take 3) == "and".toList then
          if (match prev with | none => true | some p => !isWordChar p) &&
             (match t.drop 3 with | [] => true | c :: _ => !isWordChar c) then
            some 3
          else none
        else none

/-- The alternation of `\s*;\s*`: a literal semicolon. -/
def sepAltSemi (_ : Option Char) (t : List Char) : Option Nat :=
  match t with
  | ';' :: _ => some 1
  | _ => none

/-- `cs[a..b)`. -/
def segment (cs : List Char) (a b : Nat) : List Char := (cs.drop a).take (b - a)

/-- One attempt of `\s*ALT\s*` whose match starts at index `i`: the leading
`\s*` backtracks from longest to shortest; returns the end index of the
whole match. -/
def sepMatchEnd (alt : Option Char → List Char → Option Nat)
    (cs : List Char) (i : Nat) : Option Nat :=
  let m := ((cs.drop i).takeWhile isSpaceChar).length
  (List.range (m + 1)).reverse.findSome? (fun k =>
    let pos := i + k
    let prev := (cs.take pos).getLast?
    match alt prev (cs.drop pos) with
    | some len =>
      some (pos + len + ((cs.drop (pos + len)).takeWhile isSpaceChar).length)
    | none => none)

/-- The scanning loop of JS `String.prototype.split` with the regex
`\s*ALT\s*`: pieces between successive leftmost matches. -/
def sepScanGo (alt : Option Char → List Char → Option Nat) (cs : List Char) :
    Nat → Nat → Nat → List (List Char)
  | 0, start, _ => [cs.drop start]
  | fuel + 1, start, i =>
    if cs.length ≤ i then [segment cs start cs.length]
    else
      match sepMatchEnd alt cs i with
      | some e => segment cs start i :: sepScanGo alt cs fuel e e
      | none => sepScanGo alt cs fuel start (i + 1)

def jsSplitRegex (alt : Option Char → List Char → Option Nat)
    (cs : List Char) : List (List Char) :=
  sepScanGo alt cs (cs.length + 1) 0 0

/-- The dash class `[-–—]` stripped from candidate edges. -/
def isDashLike (c : Char) : Bool := c == '-' || c == '–' || c == '—'

/-- `/^Lecturer:?\s*/i` and `/^Tutor:?\s*/i`: a case-insensitive prefix, an
optional colon, then whitespace. -/
def stripLeadPrefix (pat : List Char) (cs : List Char) : List Char :=
  if lowerList (cs.take pat.length) == pat then
    let r := cs.drop pat.length
    let r2 := match r with
      | ':' :: rr => rr
      | _ => r
    r2.dropWhile isSpaceChar
  else cs

/-- `.replace(/\s+,/g, ",")`. -/
def cscGo : Nat → List Char → List Char
  | 0, l => l
  | _ + 1, [] => []
  | fuel + 1, c :: r =>
    if isSpaceChar c then
      match r.dropWhile isSpaceChar with
      | ',' :: r3 => ',' :: cscGo fuel r3
      | _ => c :: cscGo fuel r
    else c :: cscGo fuel r

/-- `.replace(/,\s+/g, ", ")`. -/
def cspGo : Nat → List Char → List Char
  | 0, l => l
  | _ + 1, [] => []
  | fuel + 1, c :: r =>
    if c = ',' then
      match r with
      | c2 :: _ =>
        if isSpaceChar c2 then ',' :: ' ' :: cspGo fuel (r.dropWhile isSpaceChar)
        else ',' :: cspGo fuel r
      | [] => [',']
    else c :: cspGo fuel r

def LECTURER_EXCLUSION_KEYWORDS : List String :=
  ["tbc", "vacant", "available", "not set", "week", "term", "session",
   "module", "lecture", "group", "slot", "enc.", "cc"]

/-- The separator class `[\s,.''-]` of `titleCaseSegment`. -/
def titleSeps (c : Char) : Bool :=
  isSpaceChar c || c == ',' || c == '.' || c == '\'' || c == '-'

/-- The g-replacement `(^|[\s,.''-])([a-z]) → prefix + uppercase`: a
lowercase letter at the start or after a separator is uppercased. -/
def titleApply : Option Char → List Char → List Char
  | _, [] => []
  | prev, c :: r =>
    (if isLowerChar c &&
        (match prev with | none => true | some p => titleSeps p) then
      Char.toUpper c
    else c) :: titleApply (some c) r

/-- `titleCaseSegment` from `src/scripts/lecturer-utils.ts`. -/
def titleCaseSegment (seg : String) : String :=
  String.mk (titleApply none (lowerList seg.toList))

/-- Glue for `Array.prototype.join`. -/
def joinWith (sep : List Char) : List (List Char) → List Char
  | [] => []
  | [x] => x
  | x :: xs => x ++ sep ++ joinWith sep xs

def hasMixedCase (cs : List Char) : Bool := cs.any isLowerChar && cs.any isUpperChar

/-- `normaliseLecturerName`: mixed-case input only gets its comma spacing
fixed; uniform-case input is split on commas, segment-wise title-cased and
re-joined. -/
def normaliseLecturerName (name : String) : String :=
  let trimmed := (jsTrim name).toList
  if hasMixedCase trimmed then
    let a := cscGo (trimmed.length + 1) trimmed
    String.mk (cspGo (a.length + 1) a)
  else
    let segs := jsSplitOnSub [','] trimmed
    let titled := segs.map (fun seg => (titleCaseSegment (jsTrim (String.mk seg))).toList)
    let joined := joinWith ", ".toList titled
    String.mk (cscGo (joined.length + 1) joined)

/-- The per-candidate cleaning chain of `extractLecturerNames`. -/
def cleanCandidate (candidate : List Char) : String :=
  let c1 := candidate.dropWhile isDashLike
  let c2 := (c1.reverse.dropWhile isDashLike).reverse
  let c3 := stripLeadPrefix "lecturer".toList c2
  let c4 := stripLeadPrefix "tutor".toList c3
  let c5 := cscGo (c4.length + 1) c4
  let c6 := cspGo (c5.length + 1) c5
  jsTrim (String.mk c6)

/-- The per-candidate filter-normalise-insert body of the `forEach` in
`extractLecturerNames`; the `Set` is the accumulator with exact-string
dedup in insertion order. -/
def addCandidate (results : List String) (candidate : List Char) : List String :=
  let cleaned := cleanCandidate candidate
  if cleaned == "" then results
  else if LECTURER_EXCLUSION_KEYWORDS.any
      (fun kw => containsSub (lowerList cleaned.toList) kw.toList) then results
  else if cleaned.toList.any isDigitChar then results
  else if !(cleaned.toList.any isAlphaChar) then results
  else if !(cleaned.toList.any (fun c => c == ',' || isSpaceChar c)) then results
  else
    let normalised := normaliseLecturerName cleaned
    if normalised.toList.length < 3 || 80 < normalised.toList.length then results
    else if results.contains normalised then results
    else results ++ [normalised]

/-- `extractLecturerNames` from `src/scripts/lecturer-utils.ts`. -/
def extractLecturerNames (raw : String) : List String :=
  if raw == "" then []
  else
    let compact := jsTrim (String.mk (collapseWs (replaceParens raw.toList)))
    if compact == "" then []
    else
      ((jsSplitRegex sepAltMain compact.toList).flatMap
        (fun p => jsSplitRegex sepAltSemi p)).foldl addCandidate []

/-- C10: the extractor meets the spec's three concrete examples — the
two-teacher list splits into both names, while `"TBC"` (exclusion keyword)
and `"Room 101"` (contains digits) yield the empty set. -/
theorem C10_lecturer_examples :
    extractLecturerNames "Smith, John & Doe, Jane" = ["Smith, John", "Doe, Jane"] ∧
    extractLecturerNames "TBC" = [] ∧
    extractLecturerNames "Room 101" = [] := by
  refine ⟨by decide, by decide, by decide⟩

/-! ### Persistent Store (`src/scripts/db.ts` schema and the prepared
statements of `src/scripts/scrape-core.ts`) -/

/-- `INSERT OR IGNORE` against a `UNIQUE` key: the row is appended unless a
row with an equal key already exists. -/
def insertBy {α κ : Type} [DecidableEq κ] (key : α → κ)
    (tbl : List α) (a : α) : List α :=
  if tbl.any (fun r => decide (key r = key a)) then tbl else tbl ++ [a]

/-- `parseModule` from `src/scripts/db.ts` lines 162–179:
`/^([A-Z]{2,4}\d{3,5}[A-Z]?)\s*[-:]\s*(.+)$/i` splits `"CODE - Name"` into
the upper-cased code and the trimmed name; otherwise the whole trimmed
string is the name (`.` cannot cross a newline, `$` is the end). -/
def parseModule (moduleRaw : String) : Option String × Option String :=
  if moduleRaw == "" then (none, none)
  else
    let cs := moduleRaw.toList
    let letters := cs.takeWhile isAlphaChar
    let rest1 := cs.dropWhile isAlphaChar
    let digits := rest1.takeWhile isDigitChar
    let rest2 := rest1.dropWhile isDigitChar
    let codeExtra := match rest2 with
      | c :: _ => if isAlphaChar c then 1 else 0
      | [] => 0
    let rest4 := (rest2.drop codeExtra).dropWhile isSpaceChar
    let sizesOk := 2 ≤ letters.length && letters.length ≤ 4 &&
      3 ≤ digits.length && digits.length ≤ 5
    let fallback := (none, some (jsTrim moduleRaw))
    if sizesOk then
      match rest4 with
      | sep :: rest5 =>
        if sep = '-' || sep = ':' then
          let name := rest5.dropWhile isSpaceChar
          if name != [] && !(name.contains '\n') then
            (some (String.mk ((cs.take (letters.length + digits.length + codeExtra)).map
                Char.toUpper)),
             some (jsTrim (String.mk name)))
          else fallback
        else fallback
      | [] => fallback
    else fallback

/-- An `events` row (schema lines 50–68). `start_time`/`end_time` are the
timestamp minutes; `session_type` is absent from the entries the scraper
pushes and takes no part in the uniqueness key, so it is elided. -/
structure EventRow where
  room_name : String
  building_code : String
  day : String
  start_time : Nat
  end_time : Nat
  time_display : String
  module_code : Option String
  module_name : Option String
  module_raw : String
  lecturer_raw : String
  group_type : String
  slot_index : Nat
  row_index : Nat
  scraped_at : String
deriving Repr, DecidableEq

/-- The `UNIQUE(room_name, start_time, end_time, module_raw)` key. -/
def eventKey (e : EventRow) : String × Nat × Nat × String :=
  (e.room_name, e.start_time, e.end_time, e.module_raw)

/-- The `insertEvent.run(...)` row built from one timetable entry
(`scrape-core.ts` lines 150–168). -/
def toEventRow (buildingCode now : String) (entry : TimetableEntry) : EventRow :=
  { room_name := entry.roomName, building_code := buildingCode,
    day := entry.day, start_time := entry.startMin, end_time := entry.endMin,
    time_display := entry.time,
    module_code := (parseModule entry.module).1,
    module_name := (parseModule entry.module).2,
    module_raw := entry.module, lecturer_raw := entry.lecturer,
    group_type := entry.group, slot_index := entry.slotInDay,
    row_index := entry.topIdx, scraped_at := now }

/-- `INSERT OR IGNORE INTO events ...` against the `UNIQUE` constraint. -/
def insertEvent (tbl : List EventRow) (e : EventRow) : List EventRow :=
  insertBy eventKey tbl e

/-- A `lecturers` row: `name TEXT UNIQUE NOT NULL, name_lower TEXT NOT
NULL` (the `UNIQUE` constraint of the schema is on `name`). -/
structure LecturerRow where
  name : String
  name_lower : String
deriving Repr, DecidableEq

/-- `INSERT OR IGNORE INTO lecturers (name, name_lower)`. -/
def insertLecturer (tbl : List LecturerRow) (name nameLower : String) :
    List LecturerRow :=
  insertBy LecturerRow.name tbl ⟨name, nameLower⟩

/-- `INSERT OR IGNORE INTO event_lecturers (event_id, lecturer_id)` with
`PRIMARY KEY(event_id, lecturer_id)`. -/
def insertEventLecturer (tbl : List (Nat × Nat)) (p : Nat × Nat) :
    List (Nat × Nat) :=
  insertBy id tbl p

/-- JS `name.toLowerCase()` for the lookup key. -/
def jsToLower (s : String) : String := String.mk (lowerList s.toList)

/-- The events half of the per-room transaction (`scrape-core.ts` lines
148–194): every entry's row is insert-or-ignored. -/
def ingestEvents (tbl : List EventRow) (buildingCode now : String)
    (entries : List TimetableEntry) : List EventRow :=
  entries.foldl (fun t entry => insertEvent t (toEventRow buildingCode now entry)) tbl

/-- The lecturers half of the per-room transaction: for each entry with a
truthy lecturer field, every extracted name is insert-or-ignored with its
lowercased lookup key. -/
def ingestLecturers (tbl : List LecturerRow)
    (entries : List TimetableEntry) : List LecturerRow :=
  entries.foldl (fun t entry =>
    if entry.lecturer == "" then t
    else (extractLecturerNames entry.lecturer).foldl
      (fun t2 name => insertLecturer t2 name (jsToLower name)) t) tbl

/-! ### Insert-or-ignore lemmas -/

theorem insertBy_key_present {α κ : Type} [DecidableEq κ] (key : α → κ)
    (tbl : List α) (a : α)
    (h : tbl.any (fun r => decide (key r = key a)) = true) :
    insertBy key tbl a = tbl := by
  unfold insertBy
  rw [if_pos h]

theorem insertBy_mem_key {α κ : Type} [DecidableEq κ] (key : α → κ)
    (tbl : List α) (a : α) :
    (insertBy key tbl a).any (fun r => decide (key r = key a)) = true := by
  unfold insertBy
  by_cases h : tbl.any (fun r => decide (key r = key a)) = true
  · rw [if_pos h]
    exact h
  · rw [if_neg h, List.any_append]
    simp

theorem insertBy_mono {α κ : Type} [DecidableEq κ] (key : α → κ)
    (tbl : List α) (b : α) (k : κ)
    (h : tbl.any (fun r => decide (key r = k)) = true) :
    (insertBy key tbl b).any (fun r => decide (key r = k)) = true := by
  unfold insertBy
  split
  · exact h
  · rw [List.any_append, h]
    rfl

theorem insertBy_keys_nodup {α κ : Type} [DecidableEq κ] (key : α → κ)
    (tbl : List α) (a : α) (h : (tbl.map key).Nodup) :
    ((insertBy key tbl a).map key).Nodup := by
  unfold insertBy
  split
  · exact h
  · rename_i hany
    rw [List.map_append, List.map_singleton, List.nodup_append]
    refine ⟨h, List.nodup_singleton _, ?_⟩
    intro x hx hx1
    rw [List.mem_singleton] at hx1
    subst hx1
    rw [List.mem_map] at hx
    obtain ⟨r, hr, hkr⟩ := hx
    exact hany (List.any_eq_true.mpr ⟨r, hr, by simp [hkr]⟩)

/-! ### Fold lemmas for the event ingestion -/

theorem ingestEvents_mono (es : List TimetableEntry) :
    ∀ (tbl : List EventRow) (b n : String) (k : String × Nat × Nat × String),
      tbl.any (fun r => decide (eventKey r = k)) = true →
      (ingestEvents tbl b n es).any (fun r => decide (eventKey r = k)) = true := by
  induction es with
  | nil => intro tbl b n k h; exact h
  | cons e t ih =>
    intro tbl b n k h
    exact ih _ b n k (insertBy_mono eventKey tbl _ k h)

theorem ingestEvents_all (es : List TimetableEntry) :
    ∀ (tbl : List EventRow) (b n : String) (e : TimetableEntry), e ∈ es →
      (ingestEvents tbl b n es).any
        (fun r => decide (eventKey r = eventKey (toEventRow b n e))) = true := by
  induction es with
  | nil => intro tbl b n e h; cases h
  | cons a t ih =>
    intro tbl b n e h
    rcases List.mem_cons.mp h with rfl | hm
    · exact ingestEvents_mono t _ b n _ (insertBy_mem_key eventKey tbl _)
    · exact ih _ b n e hm

theorem ingestEvents_noop (es : List TimetableEntry) :
    ∀ (tbl : List EventRow) (b n : String),
      (∀ e ∈ es, tbl.any
        (fun r => decide (eventKey r = eventKey (toEventRow b n e))) = true) →
      ingestEvents tbl b n es = tbl := by
  induction es with
  | nil => intro tbl b n _; rfl
  | cons a t ih =>
    intro tbl b n h
    show ingestEvents (insertEvent tbl (toEventRow b n a)) b n t = tbl
    unfold insertEvent
    rw [insertBy_key_present eventKey tbl _ (h a (List.mem_cons_self _ _))]
    exact ih tbl b n (fun e he => h e (List.mem_cons_of_mem _ he))

theorem ingestEvents_nodup (es : List TimetableEntry) :
    ∀ (tbl : List EventRow) (b n : String), (tbl.map eventKey).Nodup →
      ((ingestEvents tbl b n es).map eventKey).Nodup := by
  induction es with
  | nil => intro tbl b n h; exact h
  | cons a t ih =>
    intro tbl b n h
    exact ih _ b n (insertBy_keys_nodup eventKey tbl _ h)

/-! ### Fold lemmas for the lecturer ingestion -/

theorem lecFold_mono (names : List String) :
    ∀ (t : List LecturerRow) (k : String),
      t.any (fun r => decide (r.name = k)) = true →
      (names.foldl (fun t2 name => insertLecturer t2 name (jsToLower name)) t).any
        (fun r => decide (r.name = k)) = true := by
  induction names with
  | nil => intro t k h; exact h
  | cons a rest ih =>
    intro t k h
    exact ih _ k (insertBy_mono LecturerRow.name t _ k h)

theorem lecFold_all (names : List String) :
    ∀ (t : List LecturerRow) (n : String), n ∈ names →
      (names.foldl (fun t2 name => insertLecturer t2 name (jsToLower name)) t).any
        (fun r => decide (r.name = n)) = true := by
  induction names with
  | nil => intro t n h; cases h
  | cons a rest ih =>
    intro t n h
    rcases List.mem_cons.mp h with rfl | hm
    · exact lecFold_mono rest _ n (insertBy_mem_key LecturerRow.name t _)
    · exact ih _ n hm

theorem lecFold_noop (names : List String) :
    ∀ (t : List LecturerRow),
      (∀ n ∈ names, t.any (fun r => decide (r.name = n)) = true) →
      names.foldl (fun t2 name => insertLecturer t2 name (jsToLower name)) t = t := by
  induction names with
  | nil => intro t _; rfl
  | cons a rest ih =>
    intro t h
    show rest.foldl _ (insertLecturer t a (jsToLower a)) = t
    unfold insertLecturer
    rw [insertBy_key_present LecturerRow.name t _ (h a (List.mem_cons_self _ _))]
    exact ih t (fun n hn => h n (List.mem_cons_of_mem _ hn))

theorem lecFold_nodup (names : List String) :
    ∀ (t : List LecturerRow), (t.map LecturerRow.name).Nodup →
      ((names.foldl (fun t2 name => insertLecturer t2 name (jsToLower name)) t).map
        LecturerRow.name).Nodup := by
  induction names with
  | nil => intro t h; exact h
  | cons a rest ih =>
    intro t h
    exact ih _ (insertBy_keys_nodup LecturerRow.name t _ h)

theorem ingestLecturers_mono (es : List TimetableEntry) :
    ∀ (t : List LecturerRow) (k : String),
      t.any (fun r => decide (r.name = k)) = true →
      (ingestLecturers t es).any (fun r => decide (r.name = k)) = true := by
  induction es with
  | nil => intro t k h; exact h
  | cons e rest ih =>
    intro t k h
    show (ingestLecturers (if e.lecturer == "" then t else _) rest).any _ = true
    split
    · exact ih t k h
    · exact ih _ k (lecFold_mono (extractLecturerNames e.lecturer) t k h)

theorem ingestLecturers_all (es : List TimetableEntry) :
    ∀ (t : List LecturerRow) (e : TimetableEntry), e ∈ es →
      (e.lecturer == "") = false → ∀ n ∈ extractLecturerNames e.lecturer,
      (ingestLecturers t es).any (fun r => decide (r.name = n)) = true := by
  induction es with
  | nil => intro t e h; cases h
  | cons a rest ih =>
    intro t e h hne n hn
    rcases List.mem_cons.mp h with rfl | hm
    · show (ingestLecturers (if e.lecturer == "" then t else _) rest).any _ = true
      rw [hne]
      exact ingestLecturers_mono rest _ n
        (lecFold_all (extractLecturerNames e.lecturer) t n hn)
    · exact ih _ e hm hne n hn

theorem ingestLecturers_noop (es : List TimetableEntry) :
    ∀ (t : List LecturerRow),
      (∀ e ∈ es, (e.lecturer == "") = true ∨
        ∀ n ∈ extractLecturerNames e.lecturer,
          t.any (fun r => decide (r.name = n)) = true) →
      ingestLecturers t es = t := by
  induction es with
  | nil => intro t _; rfl
  | cons a rest ih =>
    intro t h
    show ingestLecturers (if a.lecturer == "" then t else _) rest = t
    rcases h a (List.mem_cons_self _ _) with ha | ha
    · rw [ha]
      simp only [if_true]
      exact ih t (fun e he => h e (List.mem_cons_of_mem _ he))
    · by_cases hb : (a.lecturer == "") = true
      · rw [hb]
        simp only [if_true]
        exact ih t (fun e he => h e (List.mem_cons_of_mem _ he))
      · rw [Bool.not_eq_true] at hb
        rw [hb]
        simp only [Bool.false_eq_true, if_false]
        rw [lecFold_noop (extractLecturerNames a.lecturer) t ha]
        exact ih t (fun e he => h e (List.mem_cons_of_mem _ he))

theorem ingestLecturers_nodup (es : List TimetableEntry) :
    ∀ (t : List LecturerRow), (t.map LecturerRow.name).Nodup →
      ((ingestLecturers t es).map LecturerRow.name).Nodup := by
  induction es with
  | nil => intro t h; exact h
  | cons a rest ih =>
    intro t h
    show ((ingestLecturers (if a.lecturer == "" then t else _) rest).map _).Nodup
    split
    · exact ih t h
    · exact ih _ (lecFold_nodup (extractLecturerNames a.lecturer) t h)

/-- C3: re-ingesting the same entries for the same room within one
generation is idempotent at the store level — the event table (keyed by
room, start, end, raw module) and the lecturer table are unchanged by the
second pass even with a different `scraped_at`, an event↔lecturer link
insert is a no-op when the pair is already present, and ingestion never
creates duplicate event keys or lecturer names. -/
theorem C3_store_idempotent :
    (∀ (tbl : List EventRow) (b n1 n2 : String) (es : List TimetableEntry),
      ingestEvents (ingestEvents tbl b n1 es) b n2 es = ingestEvents tbl b n1 es) ∧
    (∀ (tbl : List LecturerRow) (es : List TimetableEntry),
      ingestLecturers (ingestLecturers tbl es) es = ingestLecturers tbl es) ∧
    (∀ (links : List (Nat × Nat)) (p : Nat × Nat), p ∈ links →
      insertEventLecturer links p = links) ∧
    (∀ (tbl : List EventRow) (b n : String) (es : List TimetableEntry),
      (tbl.map eventKey).Nodup → ((ingestEvents tbl b n es).map eventKey).Nodup) ∧
    (∀ (tbl : List LecturerRow) (es : List TimetableEntry),
      (tbl.map LecturerRow.name).Nodup →
        ((ingestLecturers tbl es).map LecturerRow.name).Nodup) := by
  refine ⟨?_, ?_, ?_, ?_, ?_⟩
  · intro tbl b n1 n2 es
    apply ingestEvents_noop
    intro e he
    have : eventKey (toEventRow b n2 e) = eventKey (toEventRow b n1 e) := rfl
    rw [this]
    exact ingestEvents_all es tbl b n1 e he
  · intro tbl es
    apply ingestLecturers_noop
    intro e he
    by_cases hb : (e.lecturer == "") = true
    · exact Or.inl hb
    · rw [Bool.not_eq_true] at hb
      exact Or.inr (fun n hn => ingestLecturers_all es tbl e he hb n hn)
  · intro links p hp
    apply insertBy_key_present
    rw [List.any_eq_true]
    exact ⟨p, hp, by simp⟩
  · intro tbl b n es
    exact ingestEvents_nodup es tbl b n
  · intro tbl es
    exact ingestLecturers_nodup es tbl

/-- C3 witness: a concrete link re-insert and a concrete double ingestion of
one entry. -/
theorem C3_store_idempotent_witness :
    insertEventLecturer [(1, 2)] (1, 2) = [(1, 2)] ∧
    (((ingestEvents [] "CM" "t1"
        [{ topIdx := 1, slotInDay := 0, time := "09:00 - 10:00",
           module := "CO2401 - X", lecturer := "King, John", group := "",
           roomName := "CM017", day := "Monday", startMin := 1980,
           endMin := 2040 }]).map eventKey).Nodup) := by
  constructor
  · exact C3_store_idempotent.2.2.1 [(1, 2)] (1, 2) (by decide)
  · exact C3_store_idempotent.2.2.2.1 [] "CM" "t1" _ (by decide)

end FindMeARoom
